import Mathlib

/-!
Verification of the flow-field pathfinding core of the quadtree-pathfinding
repository (`src/internal/pathfinder_flowfield.cpp` and `src/qdpf.cpp`).

The quadtree map collaborator is out of scope for the spec and is consumed
through its query interface only; it is represented here as a record of
functions (`QuadtreeMap`).  Data structures that the C++ code holds as hash
maps / hash sets are represented as association lists / duplicate-free lists;
C++ `while` loops of the generic solver are represented with explicit fuel.
-/

namespace Qdpf

/-- Sentinel used by the C++ code for "infinite" cost (`inf` in `base.hpp`). -/
def inf : Int := 1073741824

/-- A rectangle in grid coordinates, inclusive on both axes. -/
structure Rectangle where
  x1 : Int
  y1 : Int
  x2 : Int
  y2 : Int
deriving DecidableEq

/-- A quadtree node (`QdNode`): a rectangle with a leaf flag and an
"obstacle set is empty" flag (`objects.empty()` in the C++ code). -/
structure QdNode where
  x1 : Int
  y1 : Int
  x2 : Int
  y2 : Int
  isLeaf : Bool
  objectsEmpty : Bool
deriving DecidableEq

/-- A gate: an association between cells `a`, `b` on the shared border of the
two adjacent leaves `aNode`, `bNode`. -/
structure Gate where
  a : Int
  b : Int
  aNode : QdNode
  bNode : QdNode
deriving DecidableEq

/-- The read-only query interface of the quadtree map collaborator, as listed
in the spec's external-interfaces section.  Iteration callbacks of the C++
interface are represented by the list of values they would visit, in
visitation order. -/
structure QuadtreeMap where
  PackXY : Int → Int → Int
  UnpackXY : Int → Int × Int
  FindNode : Int → Int → Option QdNode
  IsObstacle : Int → Int → Bool
  IsGateCell : QdNode → Int → Bool
  Distance : Int → Int → Int → Int → Int
  NodesInRange : Rectangle → List QdNode
  ForEachGateInNode : QdNode → List Gate
  ForEachNeighbourNodes : QdNode → List (QdNode × Int)
  GateNeighbours : Int → List (Int × Int)

/-- Insert into a list that models a C++ `unordered_set`: add the element only
when it is absent, so that sizes and memberships agree with the set. -/
def insertIfAbsent {V : Type} [DecidableEq V] (v : V) (l : List V) : List V :=
  if v ∈ l then l else v :: l

/-- The integers from `lo` to `hi` inclusive, in increasing order. -/
def intRange (lo hi : Int) : List Int :=
  (List.range (hi + 1 - lo).toNat).map (fun i => lo + (i : Int))

/-- All cells of a rectangle, outer loop on `x`, inner loop on `y`, matching
the iteration order of the C++ double loops. -/
def cellsOfRect (r : Rectangle) : List (Int × Int) :=
  (intRange r.x1 r.x2).flatMap (fun x => (intRange r.y1 r.y2).map (fun y => (x, y)))

/-- Per-query state of `FlowFieldPathFinderImpl`.  Flow fields are association
lists from vertex to `(cost, next)`; the temporary overlay graph is a list of
directed edges `(u, v, w)` (bidirectional edges are stored in both
directions). -/
structure FFState where
  m : QuadtreeMap
  x2 : Int
  y2 : Int
  t : Int
  tNode : Option QdNode
  qrange : Rectangle
  nodesOverlappingQueryRange : List QdNode
  gatesInNodesOverlappingQueryRange : List Int
  gateCellsOnNodeFields : List Int
  tmp : List (Int × Int × Int)
  nodeFlowField : List (QdNode × Int × QdNode)
  gateFlowField : List (Int × Int × Int)
  finalFlowField : List (Int × Int × Int)

/-- Modelled from the spec: `PathFinderHelper::AddCellToNodeOnTmpGraph(c, leaf)`
(the helper is not under `src/`): insert bidirectional overlay edges from `c`
to every gate cell of `leaf`, with weight the map distance between the two
cells. -/
def addCellToNodeOnTmpGraph (m : QuadtreeMap) (c : Int) (nd : QdNode)
    (tmp : List (Int × Int × Int)) : List (Int × Int × Int) :=
  (m.ForEachGateInNode nd).foldl (fun acc g =>
    let p := m.UnpackXY c
    let q := m.UnpackXY g.a
    let w := m.Distance p.1 p.2 q.1 q.2
    (g.a, c, w) :: (c, g.a, w) :: acc) tmp

/-- Modelled from the spec: `PathFinderHelper::ConnectCellsOnTmpGraph(a, b)`
(the helper is not under `src/`): insert one bidirectional overlay edge with
weight the map distance between the two cells. -/
def connectCellsOnTmpGraph (m : QuadtreeMap) (a b : Int)
    (tmp : List (Int × Int × Int)) : List (Int × Int × Int) :=
  let p := m.UnpackXY a
  let q := m.UnpackXY b
  let w := m.Distance p.1 p.2 q.1 q.2
  (b, a, w) :: (a, b, w) :: tmp

/-- Overlay neighbours of `u` (`SimpleDirectedGraph::ForEachNeighbours`). -/
def tmpNeighbours (tmp : List (Int × Int × Int)) (u : Int) : List (Int × Int) :=
  tmp.filterMap (fun e => if e.1 = u then some (e.2.1, e.2.2) else none)

/-- Modelled from the spec: `GetOverlap` of two rectangles (defined in
`base.cpp`, not under `src/`): the intersection rectangle when it is
non-empty. -/
def getOverlap (a b : Rectangle) : Option Rectangle :=
  let o : Rectangle := ⟨max a.x1 b.x1, max a.y1 b.y1, min a.x2 b.x2, min a.y2 b.y2⟩
  if o.x1 ≤ o.x2 ∧ o.y1 ≤ o.y2 then some o else none

/-- The empty leaves overlapping the query range, collected as a set
(`pathfinder_flowfield.cpp` lines 19-22 and 68-70). -/
def resetNodes (m : QuadtreeMap) (qrange : Rectangle) : List QdNode :=
  (m.NodesInRange qrange).foldl
    (fun acc nd => if nd.isLeaf && nd.objectsEmpty then insertIfAbsent nd acc else acc) []

/-- The gate cells (the `a` side of each gate) of the overlapping leaves,
collected as a set (`pathfinder_flowfield.cpp` lines 72-76). -/
def resetGates0 (m : QuadtreeMap) (qrange : Rectangle) : List Int :=
  (resetNodes m qrange).foldl
    (fun acc nd => (m.ForEachGateInNode nd).foldl (fun a2 g => insertIfAbsent g.a a2) acc) []

/-- The overlay graph and gate set after the virtual-gate step for `t`
(`pathfinder_flowfield.cpp` lines 84-94): when `t` is not a static gate of
its leaf, it is connected to all gate cells of the leaf and, when inside the
query range, added to the overlapping-gates set. -/
def resetTg1 (m : QuadtreeMap) (x2 y2 : Int) (qrange : Rectangle) (tN : QdNode) :
    List (Int × Int × Int) × List Int :=
  let t := m.PackXY x2 y2
  if m.IsGateCell tN t = true then ([], resetGates0 m qrange)
  else
    (addCellToNodeOnTmpGraph m t tN [],
     if qrange.x1 ≤ x2 ∧ x2 ≤ qrange.x2 ∧ qrange.y1 ≤ y2 ∧ y2 ≤ qrange.y2
     then insertIfAbsent t (resetGates0 m qrange) else resetGates0 m qrange)

/-- The overlay graph and gate set after the overlap step
(`pathfinder_flowfield.cpp` lines 96-118): every cell of
`tNode.rect ∩ qrange` other than `t` that is not a static gate of the leaf is
connected to `t` and added to the overlapping-gates set. -/
def resetTg2 (m : QuadtreeMap) (x2 y2 : Int) (qrange : Rectangle) (tN : QdNode) :
    List (Int × Int × Int) × List Int :=
  let t := m.PackXY x2 y2
  match getOverlap ⟨tN.x1, tN.y1, tN.x2, tN.y2⟩ qrange with
  | none => resetTg1 m x2 y2 qrange tN
  | some o =>
    (cellsOfRect o).foldl (fun acc p =>
      let u := m.PackXY p.1 p.2
      if u ≠ t ∧ ¬ m.IsGateCell tN u = true
      then (connectCellsOnTmpGraph m u t acc.1, insertIfAbsent u acc.2)
      else acc) (resetTg1 m x2 y2 qrange tN)

/-- The body of `Reset` past its two early returns, when the query range is
valid and `FindNode` resolved the target's leaf `tN`
(`pathfinder_flowfield.cpp` lines 63-118): clear the old results, collect the
overlapping leaves and their gates, and rebuild the overlay graph. -/
def resetResolved (m : QuadtreeMap) (x2 y2 : Int) (qrange : Rectangle) (s : FFState)
    (tN : QdNode) : FFState :=
  { s with
    m := m, x2 := x2, y2 := y2, qrange := qrange,
    t := m.PackXY x2 y2, tNode := some tN,
    nodeFlowField := [], gateFlowField := [], finalFlowField := [],
    nodesOverlappingQueryRange := resetNodes m qrange,
    gatesInNodesOverlappingQueryRange := (resetTg2 m x2 y2 qrange tN).2,
    gateCellsOnNodeFields := [],
    tmp := (resetTg2 m x2 y2 qrange tN).1 }

/-- Translation of `FlowFieldPathFinderImpl::Reset`
(`pathfinder_flowfield.cpp` lines 44-119).  Note the two early returns: on an
invalid query range, and when `FindNode` yields no leaf, the old result
fields and the old overlay graph are left untouched. -/
def FlowFieldPathFinderImpl.Reset (m : QuadtreeMap) (x2 y2 : Int) (qrange : Rectangle)
    (s : FFState) : FFState :=
  let s0 := { s with m := m, x2 := x2, y2 := y2, qrange := qrange, tNode := none }
  if qrange.x1 ≤ qrange.x2 ∧ qrange.y1 ≤ qrange.y2 then
    match m.FindNode x2 y2 with
    | none => { s0 with t := m.PackXY x2 y2 }
    | some tN => resetResolved m x2 y2 qrange s tN
  else s0

section Solver

variable {V : Type} [DecidableEq V]

/-- The keys (visited vertices) of a flow field association list. -/
def ffKeys (fld : List (V × Int × V)) : List V := fld.map (fun e => e.1)

/-- A vertex is present in a flow field. -/
def inField (fld : List (V × Int × V)) (v : V) : Prop := v ∈ ffKeys fld

instance (fld : List (V × Int × V)) (v : V) : Decidable (inField fld v) := by
  unfold inField; infer_instance

/-- Cost stored for `v`, when present. -/
def ffCost (fld : List (V × Int × V)) (v : V) : Option Int :=
  (fld.find? (fun e => decide (e.1 = v))).map (fun e => e.2.1)

/-- Cost stored for `v`, with the `inf` sentinel for absent vertices. -/
def dCost (fld : List (V × Int × V)) (v : V) : Int := (ffCost fld v).getD inf

/-- Write `(cost, next)` for vertex `v`, replacing any existing entry. -/
def ffUpsert (fld : List (V × Int × V)) (v : V) (c : Int) (nx : V) :
    List (V × Int × V) :=
  (v, c, nx) :: fld.filter (fun e => decide (e.1 ≠ v))

/-- State of the generic flow-field solver: the output field (tentative costs
and successors), the open queue, the settled vertices, and the counter kept by
the early-stop closure of the pathfinder. -/
structure DState (V : Type) where
  field : List (V × Int × V)
  queue : List V
  settled : List V
  n : Nat

/-- How a solver run ended: early stop, queue exhaustion, or out of fuel (a
modelling artefact standing for a still-running C++ loop). -/
inductive EndKind where
  | byStop
  | byEmpty
  | fuelOut
deriving DecidableEq

/-- The element of `u :: r` with minimal stored cost (first minimum wins). -/
def minBy (fld : List (V × Int × V)) : V → List V → V
  | u, [] => u
  | u, v :: r => if dCost fld v < dCost fld u then minBy fld v r else minBy fld u r

/-- Pop a minimum-cost vertex from the queue (the decrease-key priority queue
of the spec's solver, §4.1). -/
def extractMin (fld : List (V × Int × V)) : List V → Option (V × List V)
  | [] => none
  | u :: r =>
    let w := minBy fld u r
    some (w, (u :: r).erase w)

/-- Whether the candidate cost `c2` improves the tentative cost stored for `v`
(an absent cost is `∞`, so any candidate improves it). -/
def improves (fld : List (V × Int × V)) (v : V) (c2 : Int) : Bool :=
  match ffCost fld v with
  | none => true
  | some c => decide (c2 < c)

/-- One relaxation `cost(v) > cost(u) + w ⇒ cost(v) := cost(u) + w, next(v) := u`
over one neighbour `(v, w)` of `u`.  Vertices rejected by the neighbour filter
are ignored; settled vertices are never relaxed again ("vertices are settled
at most once"). -/
def relaxStep (filter : V → Bool) (settled : List V) (cu : Int) (u : V)
    (st : List (V × Int × V) × List V) (p : V × Int) : List (V × Int × V) × List V :=
  if filter p.1 = true ∧ p.1 ∉ settled ∧ improves st.1 p.1 (cu + p.2) = true then
    (ffUpsert st.1 p.1 (cu + p.2) u, insertIfAbsent p.1 st.2)
  else st

/-- Modelled from the spec: the generic single-source flow-field solver
(`FlowFieldAlgorithm::Compute` in `base.hpp`, not under `src/`): Dijkstra with
a decrease-key priority queue; after a vertex is settled the stop closure is
consulted (it counts settled members of `stopSet` and halts once all of
`stopSet` is settled); otherwise the vertex's neighbours are relaxed, subject
to the optional neighbour filter. -/
def dRun (nbr : V → List (V × Int)) (filter : V → Bool) (stopSet : List V) :
    Nat → DState V → DState V × EndKind
  | 0, st => (st, EndKind.fuelOut)
  | fuel + 1, st =>
    match extractMin st.field st.queue with
    | none => (st, EndKind.byEmpty)
    | some (u, q') =>
      let cu := dCost st.field u
      let settled1 := u :: st.settled
      let n1 := if u ∈ stopSet then st.n + 1 else st.n
      if stopSet.length ≤ n1 then
        ({ field := st.field, queue := q', settled := settled1, n := n1 }, EndKind.byStop)
      else
        let fq := (nbr u).foldl (relaxStep filter settled1 cu u) (st.field, q')
        dRun nbr filter stopSet fuel
          { field := fq.1, queue := fq.2, settled := settled1, n := n1 }

/-- Initial solver state: the source is seeded with cost `0` and itself as
successor. -/
def dInit (src : V) : DState V :=
  { field := [(src, 0, src)], queue := [src], settled := [], n := 0 }

end Solver

/-- The solver run performed by `ComputeNodeFlowField`: flood the leaf
adjacency graph from `tN`, no neighbour filter, stopping once every node of
`nodesOverlappingQueryRange` has been settled (`pathfinder_flowfield.cpp`
lines 137-148). -/
def nodeFieldRun (fuel : Nat) (s : FFState) (tN : QdNode) : DState QdNode × EndKind :=
  dRun (fun u => s.m.ForEachNeighbourNodes u) (fun _ => true)
    s.nodesOverlappingQueryRange fuel (dInit tN)

/-- Translation of `FlowFieldPathFinderImpl::ComputeNodeFlowField`
(`pathfinder_flowfield.cpp` lines 124-150).  Returns `-1` when `tNode` is
absent or the target cell is an obstacle, else recomputes `nodeFlowField`
and returns `0`. -/
def FlowFieldPathFinderImpl.ComputeNodeFlowField (fuel : Nat) (s : FFState) :
    Int × FFState :=
  match s.tNode with
  | none => (-1, s)
  | some tN =>
    if s.m.IsObstacle s.x2 s.y2 = true then (-1, s)
    else (0, { s with nodeFlowField := (nodeFieldRun fuel s tN).1.field })

/-- Translation of `FlowFieldPathFinderImpl::collectGateCellsOnNodeField`
(`pathfinder_flowfield.cpp` lines 154-183): seed with `t`, add the non-gate
overlay neighbours of `t`, then for every `(node, nextNode)` of the node flow
field collect both endpoints of each gate of `node` leading to `nextNode`
(the target's own node is skipped). -/
def collectGateCellsOnNodeField (s : FFState) (tN : QdNode) : List Int :=
  let g0 : List Int := [s.t]
  let g1 := (tmpNeighbours s.tmp s.t).foldl
    (fun acc p => if s.m.IsGateCell tN p.1 = true then acc else insertIfAbsent p.1 acc) g0
  s.nodeFlowField.foldl (fun acc e =>
    if e.1 = tN then acc
    else (s.m.ForEachGateInNode e.1).foldl
      (fun a2 g => if g.bNode = e.2.2 then insertIfAbsent g.b (insertIfAbsent g.a a2) else a2)
      acc) g1

/-- Modelled from the spec: `PathFinderHelper::ForEachNeighbourGateWithST`
(not under `src/`): the neighbours of `u` on the overlay graph together with
its neighbours on the static gate graph. -/
def forEachNeighbourGateWithST (s : FFState) (u : Int) : List (Int × Int) :=
  tmpNeighbours s.tmp u ++ s.m.GateNeighbours u

/-- The solver run performed by `ComputeGateFlowField` on a state whose
`gateCellsOnNodeFields` is already up to date: flood the gate graph plus
overlay from `t`, restricting to `gateCellsOnNodeFields` when
`useNodeFlowField` is set, stopping once all of
`gatesInNodesOverlappingQueryRange` is settled (`pathfinder_flowfield.cpp`
lines 205-219). -/
def gateFieldRun (fuel : Nat) (useNodeFlowField : Bool) (s : FFState) :
    DState Int × EndKind :=
  dRun (fun u => forEachNeighbourGateWithST s u)
    (fun v => if useNodeFlowField = true ∧ v ∉ s.gateCellsOnNodeFields then false else true)
    s.gatesInNodesOverlappingQueryRange fuel (dInit s.t)

/-- Translation of `FlowFieldPathFinderImpl::ComputeGateFlowField`
(`pathfinder_flowfield.cpp` lines 189-221).  When `useNodeFlowField` is set,
`gateCellsOnNodeFields` is cleared and recollected first. -/
def FlowFieldPathFinderImpl.ComputeGateFlowField (fuel : Nat) (useNodeFlowField : Bool)
    (s : FFState) : Int × FFState :=
  match s.tNode with
  | none => (-1, s)
  | some tN =>
    if s.m.IsObstacle s.x2 s.y2 = true then (-1, s)
    else
      let s1 := if useNodeFlowField
        then { s with gateCellsOnNodeFields := collectGateCellsOnNodeField s tN }
        else s
      (0, { s1 with gateFlowField := (gateFieldRun fuel useNodeFlowField s1).1.field })

/-- Worker of the Bresenham rasterizer: emit the current cell, then advance
`x` and/or `y` by one step towards the end point according to the error
accumulator, until the end point is reached or fuel runs out. -/
def bresAux (x1 y1 sx sy dx dy : Int) : Nat → Int → Int → Int → List (Int × Int)
  | 0, x, y, _ => [(x, y)]
  | n + 1, x, y, err =>
    (x, y) ::
      (if x = x1 ∧ y = y1 then []
       else
         let e2 := 2 * err
         let a := if e2 ≥ dy then (x + sx, err + dy) else (x, err)
         let bq := if e2 ≤ dx then (y + sy, a.2 + dx) else (y, a.2)
         bresAux x1 y1 sx sy dx dy n a.1 bq.1 bq.2)

/-- Modelled from the spec: `ComputeStraightLine` (`base.cpp`, not under
`src/`): the Bresenham/DDA straight line from `(x, y)` to `(x1, y1)` as the
list of visited cells, starting at `(x, y)`.  The fuel bound `|dx| + |dy| + 1`
covers the whole line because every iteration advances at least one axis. -/
def computeStraightLineCells (x y x1 y1 : Int) : List (Int × Int) :=
  let dx := |x1 - x|
  let dy := -|y1 - y|
  let sx : Int := if x < x1 then 1 else -1
  let sy : Int := if y < y1 then 1 else -1
  bresAux x1 y1 sx sy dx dy ((dx - dy).toNat + 1) x y (dx + dy)

/-- Translation of `FlowFieldPathFinderImpl::findNeighbourCellByNext`
(`pathfinder_flowfield.cpp` lines 393-412): when `(x1, y1)` is already a
grid neighbour of `(x, y)` it is returned directly; otherwise the second cell
of the straight line from `(x, y)` to `(x1, y1)` is returned (the C++ code
stops the rasterizer after two emitted cells; the fallback `(x, y)` stands
for the uninitialised-output case the C++ code never reaches on this
branch). -/
def findNeighbourCellByNext (x y x1 y1 : Int) : Int × Int :=
  let dx := x1 - x
  let dy := y1 - y
  if dx ≥ -1 ∧ dx ≤ 1 ∧ dy ≥ -1 ∧ dy ≤ 1 then (x1, y1)
  else ((computeStraightLineCells x y x1 y1).get? 1).getD (x, y)

/-- The scratch maps of `ComputeFinalFlowFieldInQueryRange`: cost `f`,
predecessor `frm` (`from` in the C++ code) and gate-seed flag `b`, all total
with default `inf` / `false` (the C++ nested hash maps default-construct
their entries). -/
structure FinalMaps where
  f : Int → Int → Int
  frm : Int → Int → Int
  b : Int → Int → Bool

/-- Pointwise update of a two-argument map. -/
def upd2 {A : Type} (g : Int → Int → A) (x y : Int) (v : A) : Int → Int → A :=
  fun a bq => if a = x ∧ bq = y then v else g a bq

/-- The initial scratch maps: everything `inf`, nothing seeded. -/
def finalMaps0 : FinalMaps :=
  { f := fun _ _ => inf, frm := fun _ _ => inf, b := fun _ _ => false }

/-- Seeding of the scratch maps from one gate flow field entry
(`pathfinder_flowfield.cpp` lines 265-283): `f` takes the gate cost, `b` is
set, and — only inside the query range — `frm` points to a grid neighbour on
the straight line towards the entry's successor. -/
def seedStep (m : QuadtreeMap) (qrange : Rectangle) (fm : FinalMaps)
    (e : Int × Int × Int) : FinalMaps :=
  let p := m.UnpackXY e.1
  let pn := m.UnpackXY e.2.2
  let fm1 := { fm with f := upd2 fm.f p.1 p.2 e.2.1 }
  let fm2 :=
    if qrange.x1 ≤ p.1 ∧ p.1 ≤ qrange.x2 ∧ qrange.y1 ≤ p.2 ∧ p.2 ≤ qrange.y2 then
      let nb := findNeighbourCellByNext p.1 p.2 pn.1 pn.2
      { fm1 with frm := upd2 fm1.frm p.1 p.2 (m.PackXY nb.1 nb.2) }
    else fm1
  { fm2 with b := upd2 fm2.b p.1 p.2 true }

/-- One cell of sweep 1 (`computeFinalFlowFieldDP1`, `pathfinder_flowfield.cpp`
lines 316-346).  The four `if`s run in sequence on the current value of
`f[x][y]`; the last sub-condition of the fourth `if` is the source's
`y < y1`, where `y1` is the node's top bound. -/
def dpCell1 (m : QuadtreeMap) (nd : QdNode) (c1 c2 : Int) (fm : FinalMaps)
    (p : Int × Int) : FinalMaps :=
  let x := p.1
  let y := p.2
  if fm.b x y = true then fm
  else
    let t0 : Int × Option (Int × Int) := (fm.f x y, none)
    let t1 := if x > 0 ∧ y > 0 ∧ t0.1 > fm.f (x - 1) (y - 1) + c2
      then (fm.f (x - 1) (y - 1) + c2, some (x - 1, y - 1)) else t0
    let t2 := if x > 0 ∧ t1.1 > fm.f (x - 1) y + c1
      then (fm.f (x - 1) y + c1, some (x - 1, y)) else t1
    let t3 := if y > 0 ∧ t2.1 > fm.f x (y - 1) + c1
      then (fm.f x (y - 1) + c1, some (x, y - 1)) else t2
    let t4 := if x > 0 ∧ y < nd.y1 ∧ t3.1 > fm.f (x - 1) (y + 1) + c2
      then (fm.f (x - 1) (y + 1) + c2, some (x - 1, y + 1)) else t3
    match t4.2 with
    | none => fm
    | some q =>
      { fm with
        f := upd2 fm.f x y t4.1,
        frm := upd2 fm.frm x y (m.PackXY q.1 q.2) }

/-- Sweep 1 over a node, rows left-to-right, within a row top-to-bottom
(outer loop on `x`, inner on `y`), as in the C++ double loop. -/
def computeFinalFlowFieldDP1 (m : QuadtreeMap) (nd : QdNode) (fm : FinalMaps)
    (c1 c2 : Int) : FinalMaps :=
  (cellsOfRect ⟨nd.x1, nd.y1, nd.x2, nd.y2⟩).foldl (dpCell1 m nd c1 c2) fm

/-- One cell of sweep 2 (`computeFinalFlowFieldDP2`, `pathfinder_flowfield.cpp`
lines 351-381). -/
def dpCell2 (m : QuadtreeMap) (nd : QdNode) (c1 c2 : Int) (fm : FinalMaps)
    (p : Int × Int) : FinalMaps :=
  let x := p.1
  let y := p.2
  if fm.b x y = true then fm
  else
    let t0 : Int × Option (Int × Int) := (fm.f x y, none)
    let t1 := if x < nd.x2 ∧ y < nd.y2 ∧ t0.1 > fm.f (x + 1) (y + 1) + c2
      then (fm.f (x + 1) (y + 1) + c2, some (x + 1, y + 1)) else t0
    let t2 := if x < nd.x2 ∧ t1.1 > fm.f (x + 1) y + c1
      then (fm.f (x + 1) y + c1, some (x + 1, y)) else t1
    let t3 := if y < nd.y2 ∧ t2.1 > fm.f x (y + 1) + c1
      then (fm.f x (y + 1) + c1, some (x, y + 1)) else t2
    let t4 := if x < nd.x2 ∧ y > 0 ∧ t3.1 > fm.f (x + 1) (y - 1) + c2
      then (fm.f (x + 1) (y - 1) + c2, some (x + 1, y - 1)) else t3
    match t4.2 with
    | none => fm
    | some q =>
      { fm with
        f := upd2 fm.f x y t4.1,
        frm := upd2 fm.frm x y (m.PackXY q.1 q.2) }

/-- Sweep 2 over a node, reverse order of sweep 1. -/
def computeFinalFlowFieldDP2 (m : QuadtreeMap) (nd : QdNode) (fm : FinalMaps)
    (c1 c2 : Int) : FinalMaps :=
  ((cellsOfRect ⟨nd.x1, nd.y1, nd.x2, nd.y2⟩).reverse).foldl (dpCell2 m nd c1 c2) fm

/-- The scratch maps after seeding from the gate flow field and running both
sweeps over every node overlapping the query range. -/
def finalMapsOf (s : FFState) : FinalMaps :=
  let c1 := s.m.Distance 0 0 0 1
  let c2 := s.m.Distance 0 0 1 1
  let seeded := s.gateFlowField.foldl (seedStep s.m s.qrange) finalMaps0
  s.nodesOverlappingQueryRange.foldl
    (fun fm nd => computeFinalFlowFieldDP2 s.m nd (computeFinalFlowFieldDP1 s.m nd fm c1 c2) c1 c2)
    seeded

/-- The final-field emission loop (`pathfinder_flowfield.cpp` lines 297-308):
every query-range cell whose cost and predecessor are both set is collected.
-/
def emitFinalField (s : FFState) (fm : FinalMaps) : List (Int × Int × Int) :=
  (cellsOfRect s.qrange).filterMap (fun p =>
    if fm.f p.1 p.2 = inf ∨ fm.frm p.1 p.2 = inf then none
    else some (s.m.PackXY p.1 p.2, fm.f p.1 p.2, fm.frm p.1 p.2))

/-- Translation of `FlowFieldPathFinderImpl::ComputeFinalFlowFieldInQueryRange`
(`pathfinder_flowfield.cpp` lines 243-311). -/
def FlowFieldPathFinderImpl.ComputeFinalFlowFieldInQueryRange (s : FFState) :
    Int × FFState :=
  match s.tNode with
  | none => (-1, s)
  | some _ =>
    if s.m.IsObstacle s.x2 s.y2 = true then (-1, s)
    else (0, { s with finalFlowField := emitFinalField s (finalMapsOf s) })

/-- Translation of `FlowFieldPathFinderImpl::VisitCellFlowField`
(`pathfinder_flowfield.cpp` lines 414-422): one callback invocation per entry
of the cell field, with the vertex and its successor unpacked. -/
def FlowFieldPathFinderImpl.VisitCellFlowField (m : QuadtreeMap)
    (cellFlowField : List (Int × Int × Int)) : List (Int × Int × Int × Int × Int) :=
  cellFlowField.map (fun e =>
    let p := m.UnpackXY e.1
    let pn := m.UnpackXY e.2.2
    (p.1, p.2, pn.1, pn.2, e.2.1))

/-- The multi-terrain / multi-agent-size indexer facade (`QuadtreeMapX`): the
core only consumes its `Get` lookup. -/
structure QuadtreeMapX where
  get : Int → Int → Option QuadtreeMap

/-- State of the caller-facing `FlowFieldPathFinder` facade (`qdpf.cpp`): the
indexer it was built over and the wrapped implementation state. -/
structure FlowFieldPathFinderState where
  mx : QuadtreeMapX
  impl : FFState

/-- Translation of `FlowFieldPathFinder::Reset` (`qdpf.cpp` lines 62-68):
when the indexer has no map for `(agentSize, walkableterrainTypes)` it
returns `-1` without touching the implementation state, else it resets the
implementation on the found map and returns `0`. -/
def FlowFieldPathFinder.Reset (x2 y2 : Int) (dest : Rectangle)
    (agentSize walkableterrainTypes : Int) (s : FlowFieldPathFinderState) :
    Int × FlowFieldPathFinderState :=
  match s.mx.get agentSize walkableterrainTypes with
  | none => (-1, s)
  | some m => (0, { s with impl := FlowFieldPathFinderImpl.Reset m x2 y2 dest s.impl })

/-- Translation of `FlowFieldPathFinder::ComputeNodeFlowField` (`qdpf.cpp`
line 70): the C++ wrapper has return type `void`, so the `i32` produced by
the implementation is discarded; the integer channel visible to the caller is
modelled as `Option Int` and is always `none`. -/
def FlowFieldPathFinder.ComputeNodeFlowField (fuel : Nat)
    (s : FlowFieldPathFinderState) : Option Int × FlowFieldPathFinderState :=
  (none, { s with impl := (FlowFieldPathFinderImpl.ComputeNodeFlowField fuel s.impl).2 })

/-- Translation of `FlowFieldPathFinder::VisitComputedNodeFlowField`
(`qdpf.cpp` lines 71-73): the body is an empty `// TODO` stub, so no callback
is ever invoked; the list of visited entries is empty. -/
def FlowFieldPathFinder.VisitComputedNodeFlowField (_s : FlowFieldPathFinderState) :
    List (Int × Int × QdNode) :=
  []

/-! Concrete maps and query states used to instantiate the theorems. -/

/-- Octile distance with axial unit `c1` and diagonal unit `c2`. -/
def octileDist (c1 c2 x1 y1 x2 y2 : Int) : Int :=
  let dx := |x2 - x1|
  let dy := |y2 - y1|
  c2 * min dx dy + c1 * (max dx dy - min dx dy)

/-- The integer octile distance used by the concrete maps (`c1 = 10`,
`c2 = 14`, as in the spec's scenarios). -/
def distOct (x1 y1 x2 y2 : Int) : Int := octileDist 10 14 x1 y1 x2 y2

/-- Packing for the concrete maps on a 10-wide grid. -/
def packM (x y : Int) : Int := x * 10 + y

/-- Unpacking for the concrete maps on a 10-wide grid. -/
def unpackM (v : Int) : Int × Int := (v / 10, v % 10)

/-- Whether a rectangle intersects a node's rectangle. -/
def rectIntersectsNode (r : Rectangle) (nd : QdNode) : Bool :=
  decide (r.x1 ≤ nd.x2 ∧ nd.x1 ≤ r.x2 ∧ r.y1 ≤ nd.y2 ∧ nd.y1 ≤ r.y2)

/-- A fresh pathfinder state bound to `m`, before any query. -/
def initState (m : QuadtreeMap) : FFState :=
  { m := m, x2 := 0, y2 := 0, t := 0, tNode := none, qrange := ⟨0, 0, 0, 0⟩,
    nodesOverlappingQueryRange := [], gatesInNodesOverlappingQueryRange := [],
    gateCellsOnNodeFields := [], tmp := [], nodeFlowField := [],
    gateFlowField := [], finalFlowField := [] }

/-- An obstacle-free 4x4 leaf at the origin. -/
def nodeA1 : QdNode := ⟨0, 0, 3, 3, true, true⟩

/-- The obstacle-free leaf right of `nodeA1`. -/
def nodeB1 : QdNode := ⟨4, 0, 7, 3, true, true⟩

/-- The gate joining `nodeA1` (side cell `(3,3)`) and `nodeB1` (side cell
`(4,0)` is not on the shared border of a real map, but only the `a`-side
membership matters to the code under test). -/
def gateAB : Gate := ⟨33, 40, nodeA1, nodeB1⟩

/-- Map `mapTwoLeaves`: an 8x4 grid split into the two leaves `nodeA1`,
`nodeB1` joined by the single gate `gateAB`. -/
def mapTwoLeaves : QuadtreeMap :=
  { PackXY := packM, UnpackXY := unpackM,
    FindNode := fun x y =>
      if 0 ≤ x ∧ x ≤ 3 ∧ 0 ≤ y ∧ y ≤ 3 then some nodeA1
      else if 4 ≤ x ∧ x ≤ 7 ∧ 0 ≤ y ∧ y ≤ 3 then some nodeB1 else none,
    IsObstacle := fun _ _ => false,
    IsGateCell := fun nd c =>
      if nd = nodeA1 then decide (c = 33) else if nd = nodeB1 then decide (c = 40) else false,
    Distance := distOct,
    NodesInRange := fun r => [nodeA1, nodeB1].filter (rectIntersectsNode r),
    ForEachGateInNode := fun nd =>
      if nd = nodeA1 then [gateAB] else if nd = nodeB1 then [⟨40, 33, nodeB1, nodeA1⟩] else [],
    ForEachNeighbourNodes := fun nd =>
      if nd = nodeA1 then [(nodeB1, 30)] else if nd = nodeB1 then [(nodeA1, 30)] else [],
    GateNeighbours := fun c =>
      if c = 33 then [(40, 10)] else if c = 40 then [(33, 10)] else [] }

/-- The single-cell leaf at `(0,0)`. -/
def nodeA2 : QdNode := ⟨0, 0, 0, 0, true, true⟩

/-- The single-cell leaf at `(2,2)`. -/
def nodeB2 : QdNode := ⟨2, 2, 2, 2, true, true⟩

/-- Map `mapDisconnected`: two single-cell leaves with no adjacency between
them (every other cell is an obstacle, so the leaf graph is disconnected). -/
def mapDisconnected : QuadtreeMap :=
  { PackXY := packM, UnpackXY := unpackM,
    FindNode := fun x y =>
      if x = 0 ∧ y = 0 then some nodeA2 else if x = 2 ∧ y = 2 then some nodeB2 else none,
    IsObstacle := fun x y => !decide ((x = 0 ∧ y = 0) ∨ (x = 2 ∧ y = 2)),
    IsGateCell := fun _ _ => false,
    Distance := distOct,
    NodesInRange := fun r => [nodeA2, nodeB2].filter (rectIntersectsNode r),
    ForEachGateInNode := fun _ => [],
    ForEachNeighbourNodes := fun _ => [],
    GateNeighbours := fun _ => [] }

/-- The 3x3 leaf at the origin. -/
def nodeA3 : QdNode := ⟨0, 0, 2, 2, true, true⟩

/-- Map `mapOneLeaf`: a single obstacle-free 3x3 leaf (no gates at all). -/
def mapOneLeaf : QuadtreeMap :=
  { PackXY := packM, UnpackXY := unpackM,
    FindNode := fun x y => if 0 ≤ x ∧ x ≤ 2 ∧ 0 ≤ y ∧ y ≤ 2 then some nodeA3 else none,
    IsObstacle := fun _ _ => false,
    IsGateCell := fun _ _ => false,
    Distance := distOct,
    NodesInRange := fun r => [nodeA3].filter (rectIntersectsNode r),
    ForEachGateInNode := fun _ => [],
    ForEachNeighbourNodes := fun _ => [],
    GateNeighbours := fun _ => [] }

/-- The 5x5 leaf at the origin, used for the densifier scenarios. -/
def nodeN5 : QdNode := ⟨0, 0, 4, 4, true, true⟩

/-- Query state for the densifier scenario: target leaf `nodeN5` covers the
query range `(0,0)-(4,4)`; the gate flow field holds the single seed
`(0,4) ↦ (cost 0, next itself)` (`packM 0 4 = 4`). -/
def stateDp : FFState :=
  { initState mapOneLeaf with
    x2 := 0, y2 := 4, t := 4, tNode := some nodeN5,
    qrange := ⟨0, 0, 4, 4⟩,
    nodesOverlappingQueryRange := [nodeN5],
    gateFlowField := [(4, 0, 4)] }

/-- Encoding of an integer as a natural number (non-negatives to evens,
negatives to odds). -/
def zenc (x : Int) : Nat := if 0 ≤ x then (2 * x).toNat else (-2 * x - 1).toNat

/-- Decoding of `zenc`. -/
def zdec (n : Nat) : Int :=
  if n % 2 = 0 then ((n / 2 : Nat) : Int) else -(((n / 2 : Nat) : Int) + 1)

/-- A bijective cell packing on all of `ℤ²` (via the natural pairing
function), so that unpack-of-pack holds for every coordinate pair. -/
def packZ (x y : Int) : Int := (Nat.pair (zenc x) (zenc y) : Int)

/-- The inverse unpacking of `packZ`. -/
def unpackZ (v : Int) : Int × Int :=
  (zdec (Nat.unpair v.toNat).1, zdec (Nat.unpair v.toNat).2)

/-- Map `mapZ`: a single-cell leaf at the origin with a globally bijective
packing. -/
def mapZ : QuadtreeMap :=
  { PackXY := packZ, UnpackXY := unpackZ,
    FindNode := fun x y => if x = 0 ∧ y = 0 then some nodeA2 else none,
    IsObstacle := fun _ _ => false,
    IsGateCell := fun _ _ => false,
    Distance := distOct,
    NodesInRange := fun r => [nodeA2].filter (rectIntersectsNode r),
    ForEachGateInNode := fun _ => [],
    ForEachNeighbourNodes := fun _ => [],
    GateNeighbours := fun _ => [] }

/-- Query state for the adjacency witness: target `(0,0)` on `mapZ`, with the
gate flow field seeded by the target's self-loop entry. -/
def stateZ : FFState :=
  { initState mapZ with
    t := packZ 0 0, tNode := some nodeA2,
    nodesOverlappingQueryRange := [nodeA2],
    gateFlowField := [(packZ 0 0, 0, packZ 0 0)] }

/-! General helper lemmas. -/

theorem foldlPreserve {A B : Type} (P : A → Prop) (g : A → B → A) :
    ∀ (l : List B) (a : A), P a →
      (∀ (acc : A) (x : B), x ∈ l → P acc → P (g acc x)) → P (l.foldl g a) := by
  intro l
  induction l with
  | nil => intro a h _; exact h
  | cons hd tl ih =>
    intro a h hstep
    exact ih (g a hd) (hstep a hd (List.mem_cons_self hd tl) h)
      (fun acc x hx hacc => hstep acc x (List.mem_cons_of_mem hd hx) hacc)

/-- On an error state (unresolved target leaf or obstacle target), each of the
three compute entry points returns `-1` and leaves the whole state untouched.
-/
theorem computeReturnsErr (fuel : Nat) (u : Bool) (s : FFState)
    (h : s.tNode = none ∨ s.m.IsObstacle s.x2 s.y2 = true) :
    FlowFieldPathFinderImpl.ComputeNodeFlowField fuel s = (-1, s) ∧
    FlowFieldPathFinderImpl.ComputeGateFlowField fuel u s = (-1, s) ∧
    FlowFieldPathFinderImpl.ComputeFinalFlowFieldInQueryRange s = (-1, s) := by
  rcases h with h | h
  · refine ⟨?_, ?_, ?_⟩ <;>
      simp [FlowFieldPathFinderImpl.ComputeNodeFlowField,
        FlowFieldPathFinderImpl.ComputeGateFlowField,
        FlowFieldPathFinderImpl.ComputeFinalFlowFieldInQueryRange, h]
  · cases ht : s.tNode with
    | none =>
      refine ⟨?_, ?_, ?_⟩ <;>
        simp [FlowFieldPathFinderImpl.ComputeNodeFlowField,
          FlowFieldPathFinderImpl.ComputeGateFlowField,
          FlowFieldPathFinderImpl.ComputeFinalFlowFieldInQueryRange, ht]
    | some tN =>
      refine ⟨?_, ?_, ?_⟩ <;>
        simp [FlowFieldPathFinderImpl.ComputeNodeFlowField,
          FlowFieldPathFinderImpl.ComputeGateFlowField,
          FlowFieldPathFinderImpl.ComputeFinalFlowFieldInQueryRange, ht, h]

/-- C1: each implementation compute entry point (`ComputeNodeFlowField`,
`ComputeGateFlowField`, `ComputeFinalFlowFieldInQueryRange`) returns `-1` when
`tNode` is absent or the target cell is an obstacle, and `0` otherwise.  The
claim's final part fails on the code: the caller-facing wrapper
`FlowFieldPathFinder::ComputeNodeFlowField` has return type `void`
(`qdpf.cpp` line 70), so the caller is yielded no integer at all (modelled as
the constant `none`), and the gate/final stages have no caller-facing wrapper.
-/
theorem C1_returnCodes (fuel : Nat) (u : Bool) (s : FFState)
    (fs : FlowFieldPathFinderState) :
    ((FlowFieldPathFinderImpl.ComputeNodeFlowField fuel s).1 =
      if s.tNode = none ∨ s.m.IsObstacle s.x2 s.y2 = true then -1 else 0) ∧
    ((FlowFieldPathFinderImpl.ComputeGateFlowField fuel u s).1 =
      if s.tNode = none ∨ s.m.IsObstacle s.x2 s.y2 = true then -1 else 0) ∧
    ((FlowFieldPathFinderImpl.ComputeFinalFlowFieldInQueryRange s).1 =
      if s.tNode = none ∨ s.m.IsObstacle s.x2 s.y2 = true then -1 else 0) ∧
    (FlowFieldPathFinder.ComputeNodeFlowField fuel fs).1 = none := by
  by_cases h : s.tNode = none ∨ s.m.IsObstacle s.x2 s.y2 = true
  · have he := computeReturnsErr fuel u s h
    refine ⟨?_, ?_, ?_, rfl⟩ <;> simp [he.1, he.2.1, he.2.2, h]
  · push_neg at h
    obtain ⟨h1, h2⟩ := h
    cases ht : s.tNode with
    | none => exact absurd ht h1
    | some tN =>
      have h2f : s.m.IsObstacle s.x2 s.y2 = false := by
        cases hob : s.m.IsObstacle s.x2 s.y2
        · rfl
        · exact absurd hob h2
      refine ⟨?_, ?_, ?_, rfl⟩ <;>
        simp [FlowFieldPathFinderImpl.ComputeNodeFlowField,
          FlowFieldPathFinderImpl.ComputeGateFlowField,
          FlowFieldPathFinderImpl.ComputeFinalFlowFieldInQueryRange, ht, h2f]

/-- C10: when the indexer holds no map for the requested agent size and
terrain types, the facade `Reset` returns `-1` and the state (including the
wrapped implementation state) is exactly what it was. -/
theorem C10_resetNoMap (x2 y2 agentSize walkableterrainTypes : Int) (dest : Rectangle)
    (s : FlowFieldPathFinderState)
    (h : s.mx.get agentSize walkableterrainTypes = none) :
    FlowFieldPathFinder.Reset x2 y2 dest agentSize walkableterrainTypes s = (-1, s) := by
  unfold FlowFieldPathFinder.Reset
  rw [h]

/-- A facade state over an indexer that never finds a map. -/
def fsNoMap : FlowFieldPathFinderState := ⟨⟨fun _ _ => none⟩, initState mapOneLeaf⟩

/-- Witness for C10 at a concrete facade state. -/
theorem C10_resetNoMapWitness :
    FlowFieldPathFinder.Reset 1 1 ⟨0, 0, 2, 2⟩ 1 1 fsNoMap = (-1, fsNoMap) :=
  C10_resetNoMap 1 1 1 1 ⟨0, 0, 2, 2⟩ fsNoMap rfl

/-! Concrete query chain on `mapOneLeaf`: a successful query, then a `Reset`
with an invalid query rectangle. -/

/-- State after a successful `Reset` targeting `(1,1)` with the full map as
query range. -/
def stateQ1 : FFState :=
  FlowFieldPathFinderImpl.Reset mapOneLeaf 1 1 ⟨0, 0, 2, 2⟩ (initState mapOneLeaf)

/-- State after the successful node-field computation of the first query. -/
def stateQ2 : FFState := (FlowFieldPathFinderImpl.ComputeNodeFlowField 10 stateQ1).2

/-- State after a second `Reset` whose query rectangle is invalid
(`x1 = 5 > 4 = x2`). -/
def stateQ3 : FFState := FlowFieldPathFinderImpl.Reset mapOneLeaf 1 1 ⟨5, 5, 4, 4⟩ stateQ2

/-- Counterexample to C2: after a successful query, a `Reset` with an invalid
rectangle followed by a compute call returns `-1` but leaves the node flow
field of the earlier query and the earlier overlay edges in place — the prior
per-query state is not cleared. -/
theorem C2_staleStateCounterexample :
    (FlowFieldPathFinderImpl.ComputeNodeFlowField 10 stateQ3).1 = -1 ∧
    (FlowFieldPathFinderImpl.ComputeNodeFlowField 10 stateQ3).2.nodeFlowField ≠ [] ∧
    (FlowFieldPathFinderImpl.ComputeNodeFlowField 10 stateQ3).2.tmp ≠ [] := by
  refine ⟨by decide, by decide, by decide⟩

/-- C2 as amended: on an early-exiting `Reset` (invalid rectangle or
unresolved target leaf) `tNode` is left absent and the three result fields
and the overlay graph keep their previous contents; every subsequent compute
call then returns `-1` and produces no field, leaving the state exactly as it
was. -/
theorem C2_errorPathAmended (m : QuadtreeMap) (x2 y2 : Int) (q : Rectangle) (s : FFState)
    (h : ¬(q.x1 ≤ q.x2 ∧ q.y1 ≤ q.y2) ∨ m.FindNode x2 y2 = none) :
    (FlowFieldPathFinderImpl.Reset m x2 y2 q s).tNode = none ∧
    (FlowFieldPathFinderImpl.Reset m x2 y2 q s).nodeFlowField = s.nodeFlowField ∧
    (FlowFieldPathFinderImpl.Reset m x2 y2 q s).gateFlowField = s.gateFlowField ∧
    (FlowFieldPathFinderImpl.Reset m x2 y2 q s).finalFlowField = s.finalFlowField ∧
    (FlowFieldPathFinderImpl.Reset m x2 y2 q s).tmp = s.tmp ∧
    ∀ (fuel : Nat) (u : Bool),
      FlowFieldPathFinderImpl.ComputeNodeFlowField fuel
          (FlowFieldPathFinderImpl.Reset m x2 y2 q s) =
        (-1, FlowFieldPathFinderImpl.Reset m x2 y2 q s) ∧
      FlowFieldPathFinderImpl.ComputeGateFlowField fuel u
          (FlowFieldPathFinderImpl.Reset m x2 y2 q s) =
        (-1, FlowFieldPathFinderImpl.Reset m x2 y2 q s) ∧
      FlowFieldPathFinderImpl.ComputeFinalFlowFieldInQueryRange
          (FlowFieldPathFinderImpl.Reset m x2 y2 q s) =
        (-1, FlowFieldPathFinderImpl.Reset m x2 y2 q s) := by
  have ht : (FlowFieldPathFinderImpl.Reset m x2 y2 q s).tNode = none ∧
      (FlowFieldPathFinderImpl.Reset m x2 y2 q s).nodeFlowField = s.nodeFlowField ∧
      (FlowFieldPathFinderImpl.Reset m x2 y2 q s).gateFlowField = s.gateFlowField ∧
      (FlowFieldPathFinderImpl.Reset m x2 y2 q s).finalFlowField = s.finalFlowField ∧
      (FlowFieldPathFinderImpl.Reset m x2 y2 q s).tmp = s.tmp := by
    rcases h with h | h
    · simp [FlowFieldPathFinderImpl.Reset, h]
    · by_cases hq : q.x1 ≤ q.x2 ∧ q.y1 ≤ q.y2
      · simp [FlowFieldPathFinderImpl.Reset, hq, h]
      · simp [FlowFieldPathFinderImpl.Reset, hq]
  refine ⟨ht.1, ht.2.1, ht.2.2.1, ht.2.2.2.1, ht.2.2.2.2, fun fuel u => ?_⟩
  exact computeReturnsErr fuel u _ (Or.inl ht.1)

/-- Witness for C2's amended theorem at a concrete invalid-rectangle `Reset`
following a successful query. -/
theorem C2_errorPathAmendedWitness :
    (FlowFieldPathFinderImpl.Reset mapOneLeaf 1 1 ⟨5, 5, 4, 4⟩ stateQ2).tNode = none :=
  (C2_errorPathAmended mapOneLeaf 1 1 ⟨5, 5, 4, 4⟩ stateQ2 (Or.inl (by decide))).1

/-- C9: the implementation-side visitation (`VisitCellFlowField`) invokes the
callback exactly once per entry of the field, with both cells unpacked; but
the claim's final part fails on the code: the caller-facing
`FlowFieldPathFinder::VisitComputedNodeFlowField` is an empty `// TODO` stub
(`qdpf.cpp` lines 71-73) and visits nothing, here shown on a state whose
computed node flow field has one entry. -/
theorem C9_visitBehaviour :
    (∀ (m : QuadtreeMap) (ff : List (Int × Int × Int)),
      (FlowFieldPathFinderImpl.VisitCellFlowField m ff).length = ff.length ∧
      ∀ e ∈ ff,
        ((m.UnpackXY e.1).1, (m.UnpackXY e.1).2,
         (m.UnpackXY e.2.2).1, (m.UnpackXY e.2.2).2, e.2.1)
          ∈ FlowFieldPathFinderImpl.VisitCellFlowField m ff) ∧
    FlowFieldPathFinder.VisitComputedNodeFlowField ⟨⟨fun _ _ => none⟩, stateQ2⟩ = [] ∧
    stateQ2.nodeFlowField.length = 1 := by
  refine ⟨fun m ff => ⟨List.length_map _ _, fun e he => ?_⟩, rfl, by decide⟩
  exact List.mem_map_of_mem _ he

/-- The scratch maps seeded for the sweep-1 scenario of C3: the single gate
seed `(0,2)` with cost `0` inside the 3x3 leaf `nodeA3`. -/
def finalMapsC3 : FinalMaps :=
  { f := fun a bq => if a = 0 ∧ bq = 2 then 0 else inf,
    frm := fun _ _ => inf,
    b := fun a bq => decide (a = 0 ∧ bq = 2) }

/-- C3 fails on the code: in sweep 1 the guard of the `(-1,+1)` predecessor is
`y < y1` (the node's own lower `y` bound, `pathfinder_flowfield.cpp` line
339), which never holds inside the sweep, so cell `(1,1)` keeps cost `inf`
although its `(-1,+1)` predecessor `(0,2)` offers cost `0 + c2 = 14`. -/
theorem C3_sweep1DeadGuard :
    (computeFinalFlowFieldDP1 mapOneLeaf nodeA3 finalMapsC3 10 14).f 1 1 = inf ∧
    finalMapsC3.f 0 2 + 14 < inf ∧
    finalMapsC3.b 0 2 = true ∧ nodeA3.y1 = 0 := by
  refine ⟨by decide, by decide, by decide, rfl⟩

set_option maxRecDepth 4000 in
/-- C4 fails on the code: on the 5x5 leaf `nodeN5` seeded only at `(0,4)`
with cost `0`, the two sweeps give cell `(4,0)` the cost `80` (an axial-only
route), while the minimum over seeds of seed cost plus exact octile distance
is `0 + 4·c2 = 56`; the root cause is the dead `(-1,+1)` guard of sweep 1. -/
theorem C4_dpNotOctile :
    ((40 : Int), (80 : Int), (41 : Int)) ∈
      (FlowFieldPathFinderImpl.ComputeFinalFlowFieldInQueryRange stateDp).2.finalFlowField ∧
    (FlowFieldPathFinderImpl.ComputeFinalFlowFieldInQueryRange stateDp).1 = 0 ∧
    stateDp.gateFlowField = [(4, 0, 4)] ∧
    unpackM 4 = (0, 4) ∧ unpackM 40 = (4, 0) ∧
    mapOneLeaf.Distance 0 0 0 1 = 10 ∧ mapOneLeaf.Distance 0 0 1 1 = 14 ∧
    (0 : Int) + octileDist 10 14 4 0 0 4 = 56 ∧ (80 : Int) ≠ 56 := by
  decide

/-- State after the `Reset` of the C6 scenario: target `(0,0)` on
`mapTwoLeaves`, query range `(0,0)-(1,1)` strictly inside the target's leaf.
-/
def stateC6 : FFState :=
  FlowFieldPathFinderImpl.Reset mapTwoLeaves 0 0 ⟨0, 0, 1, 1⟩ (initState mapTwoLeaves)

set_option maxRecDepth 4000 in
/-- Counterexample to C6: after this `Reset` the overlay contains the edge
`(33, 0, 42)` built by `AddCellToNodeOnTmpGraph`, whose endpoint `33` (the
gate cell `(3,3)` of the target's leaf) is neither the target `t = 0` nor a
cell of `tNode ∩ qrange = (0,0)-(1,1)`. -/
theorem C6_gateEdgeCounterexample :
    ((33 : Int), (0 : Int), (42 : Int)) ∈ stateC6.tmp ∧
    stateC6.t = 0 ∧ stateC6.tNode = some nodeA1 ∧ stateC6.qrange = ⟨0, 0, 1, 1⟩ ∧
    getOverlap ⟨nodeA1.x1, nodeA1.y1, nodeA1.x2, nodeA1.y2⟩ ⟨0, 0, 1, 1⟩ =
      some ⟨0, 0, 1, 1⟩ ∧
    ¬((33 : Int) = stateC6.t ∨
      ∃ p ∈ cellsOfRect ⟨0, 0, 1, 1⟩, (33 : Int) = mapTwoLeaves.PackXY p.1 p.2) := by
  decide

/-- The amended endpoint set for overlay edges after a resolving `Reset`: the
target cell `t`, the gate cells of the target's leaf, and the cells of
`tNode.rect ∩ qrange`. -/
def allowedOverlayEnd (m : QuadtreeMap) (t : Int) (tN : QdNode) (q : Rectangle)
    (c : Int) : Prop :=
  c = t ∨ (∃ g ∈ m.ForEachGateInNode tN, c = g.a) ∨
    (∃ p ∈ cellsOfRect ⟨max tN.x1 q.x1, max tN.y1 q.y1, min tN.x2 q.x2, min tN.y2 q.y2⟩,
      c = m.PackXY p.1 p.2)

/-- Both endpoints of every edge added by `AddCellToNodeOnTmpGraph` satisfy
any predicate holding for `c` and for the gate cells of the leaf. -/
theorem addCellToNode_endpoints (m : QuadtreeMap) (c : Int) (nd : QdNode)
    (tmp0 : List (Int × Int × Int)) (P : Int → Prop) (hc : P c)
    (hg : ∀ g ∈ m.ForEachGateInNode nd, P g.a)
    (h0 : ∀ e ∈ tmp0, P e.1 ∧ P e.2.1) :
    ∀ e ∈ addCellToNodeOnTmpGraph m c nd tmp0, P e.1 ∧ P e.2.1 := by
  unfold addCellToNodeOnTmpGraph
  refine foldlPreserve
    (fun acc : List (Int × Int × Int) => ∀ e ∈ acc, P e.1 ∧ P e.2.1) _ _ _ h0 ?_
  intro acc g hgmem hacc e he
  simp only [List.mem_cons] at he
  rcases he with rfl | rfl | he
  · exact ⟨hg g hgmem, hc⟩
  · exact ⟨hc, hg g hgmem⟩
  · exact hacc e he

/-- When `getOverlap` succeeds, its result is the componentwise
max/min intersection rectangle. -/
theorem getOverlap_eq (a bq : Rectangle) (o : Rectangle)
    (h : getOverlap a bq = some o) :
    o = ⟨max a.x1 bq.x1, max a.y1 bq.y1, min a.x2 bq.x2, min a.y2 bq.y2⟩ := by
  unfold getOverlap at h
  dsimp only at h
  split at h
  · exact (Option.some.inj h).symm
  · exact absurd h (by simp)

/-- C6 as amended: after a `Reset` that resolves the target's leaf, every
overlay edge has both endpoints among `t`, the gate cells of `tNode`, and the
cells of `tNode.rect ∩ qrange` (the claim as stated omits the gate cells of
`tNode`, which `AddCellToNodeOnTmpGraph` connects to `t` regardless of the
query range). -/
theorem C6_overlayEndpointsAmended (m : QuadtreeMap) (x2 y2 : Int) (q : Rectangle)
    (s : FFState) (tN : QdNode)
    (hq : q.x1 ≤ q.x2 ∧ q.y1 ≤ q.y2) (hf : m.FindNode x2 y2 = some tN) :
    ∀ e ∈ (FlowFieldPathFinderImpl.Reset m x2 y2 q s).tmp,
      allowedOverlayEnd m (m.PackXY x2 y2) tN q e.1 ∧
      allowedOverlayEnd m (m.PackXY x2 y2) tN q e.2.1 := by
  have hr : FlowFieldPathFinderImpl.Reset m x2 y2 q s = resetResolved m x2 y2 q s tN := by
    unfold FlowFieldPathFinderImpl.Reset
    simp only [hf]
    rw [if_pos hq]
  rw [hr]
  show ∀ e ∈ (resetTg2 m x2 y2 q tN).1, _
  have h1 : ∀ e ∈ (resetTg1 m x2 y2 q tN).1,
      allowedOverlayEnd m (m.PackXY x2 y2) tN q e.1 ∧
      allowedOverlayEnd m (m.PackXY x2 y2) tN q e.2.1 := by
    unfold resetTg1
    by_cases hg : m.IsGateCell tN (m.PackXY x2 y2) = true
    · simp [hg]
    · rw [if_neg hg]
      exact addCellToNode_endpoints m _ tN [] _ (Or.inl rfl)
        (fun g hgm => Or.inr (Or.inl ⟨g, hgm, rfl⟩)) (by simp)
  unfold resetTg2
  cases hov : getOverlap ⟨tN.x1, tN.y1, tN.x2, tN.y2⟩ q with
  | none => exact h1
  | some o =>
    have ho := getOverlap_eq _ _ _ hov
    refine foldlPreserve
      (fun tg : List (Int × Int × Int) × List Int => ∀ e ∈ tg.1,
        allowedOverlayEnd m (m.PackXY x2 y2) tN q e.1 ∧
        allowedOverlayEnd m (m.PackXY x2 y2) tN q e.2.1) _ _ _ h1 ?_
    intro acc p hp hacc e he
    have hpo : p ∈ cellsOfRect
        ⟨max tN.x1 q.x1, max tN.y1 q.y1, min tN.x2 q.x2, min tN.y2 q.y2⟩ := ho ▸ hp
    dsimp only at he
    by_cases hcnd : m.PackXY p.1 p.2 ≠ m.PackXY x2 y2 ∧
        ¬ m.IsGateCell tN (m.PackXY p.1 p.2) = true
    · rw [if_pos hcnd] at he
      simp only [connectCellsOnTmpGraph, List.mem_cons] at he
      rcases he with rfl | rfl | he
      · exact ⟨Or.inl rfl, Or.inr (Or.inr ⟨p, hpo, rfl⟩)⟩
      · exact ⟨Or.inr (Or.inr ⟨p, hpo, rfl⟩), Or.inl rfl⟩
      · exact hacc e he
    · rw [if_neg hcnd] at he
      exact hacc e he

/-- Witness for C6's amended theorem: in the concrete C6 scenario the gate
cell `33` is an admissible endpoint. -/
theorem C6_overlayEndpointsAmendedWitness :
    allowedOverlayEnd mapTwoLeaves (mapTwoLeaves.PackXY 0 0) nodeA1 ⟨0, 0, 1, 1⟩ 33 :=
  (C6_overlayEndpointsAmended mapTwoLeaves 0 0 ⟨0, 0, 1, 1⟩ (initState mapTwoLeaves)
    nodeA1 (by decide) (by decide) (33, 0, 42) (by decide)).1

/-- C8: calling any compute stage twice in succession with the same arguments
and no intervening `Reset` leaves the corresponding flow field identical to
the result of the first call. -/
theorem C8_recomputeIdempotent (fuel : Nat) (u : Bool) (s : FFState) :
    (FlowFieldPathFinderImpl.ComputeNodeFlowField fuel
        (FlowFieldPathFinderImpl.ComputeNodeFlowField fuel s).2).2.nodeFlowField =
      (FlowFieldPathFinderImpl.ComputeNodeFlowField fuel s).2.nodeFlowField ∧
    (FlowFieldPathFinderImpl.ComputeGateFlowField fuel u
        (FlowFieldPathFinderImpl.ComputeGateFlowField fuel u s).2).2.gateFlowField =
      (FlowFieldPathFinderImpl.ComputeGateFlowField fuel u s).2.gateFlowField ∧
    (FlowFieldPathFinderImpl.ComputeFinalFlowFieldInQueryRange
        (FlowFieldPathFinderImpl.ComputeFinalFlowFieldInQueryRange s).2).2.finalFlowField =
      (FlowFieldPathFinderImpl.ComputeFinalFlowFieldInQueryRange s).2.finalFlowField := by
  refine ⟨?_, ?_, ?_⟩
  · cases ht : s.tNode with
    | none => simp [FlowFieldPathFinderImpl.ComputeNodeFlowField, ht]
    | some tN =>
      cases hob : s.m.IsObstacle s.x2 s.y2 with
      | false =>
        simp [FlowFieldPathFinderImpl.ComputeNodeFlowField, ht, hob, nodeFieldRun]
      | true => simp [FlowFieldPathFinderImpl.ComputeNodeFlowField, ht, hob]
  · cases ht : s.tNode with
    | none => simp [FlowFieldPathFinderImpl.ComputeGateFlowField, ht]
    | some tN =>
      cases hob : s.m.IsObstacle s.x2 s.y2 with
      | false =>
        cases u with
        | false =>
          simp [FlowFieldPathFinderImpl.ComputeGateFlowField, ht, hob, gateFieldRun,
            forEachNeighbourGateWithST]
        | true =>
          simp [FlowFieldPathFinderImpl.ComputeGateFlowField, ht, hob, gateFieldRun,
            forEachNeighbourGateWithST, collectGateCellsOnNodeField]
      | true => simp [FlowFieldPathFinderImpl.ComputeGateFlowField, ht, hob]
  · cases ht : s.tNode with
    | none => simp [FlowFieldPathFinderImpl.ComputeFinalFlowFieldInQueryRange, ht]
    | some tN =>
      cases hob : s.m.IsObstacle s.x2 s.y2 with
      | false =>
        simp [FlowFieldPathFinderImpl.ComputeFinalFlowFieldInQueryRange, ht, hob,
          emitFinalField, finalMapsOf]
      | true => simp [FlowFieldPathFinderImpl.ComputeFinalFlowFieldInQueryRange, ht, hob]

/-! Adjacency of `next` pointers in the final flow field (C7). -/

/-- The first cell emitted by the rasterizer worker is its starting cell. -/
theorem bresAux_get_zero (x1 y1 sx sy dx dy : Int) (fuel : Nat) (x y err : Int) :
    (bresAux x1 y1 sx sy dx dy fuel x y err).get? 0 = some (x, y) := by
  cases fuel <;> simp [bresAux]

/-- The second cell emitted by the rasterizer worker (when it exists) is a
grid neighbour of the starting cell, for unit steps `sx`, `sy`. -/
theorem bresAux_get1_adjacent (x1 y1 sx sy dx dy : Int) (n : Nat) (x y err : Int)
    (hsx : sx = 1 ∨ sx = -1) (hsy : sy = 1 ∨ sy = -1) :
    ∀ p : Int × Int, (bresAux x1 y1 sx sy dx dy (n + 1) x y err).get? 1 = some p →
      |p.1 - x| ≤ 1 ∧ |p.2 - y| ≤ 1 := by
  intro p hp
  simp only [bresAux] at hp
  rw [List.get?_cons_succ] at hp
  by_cases ht : x = x1 ∧ y = y1
  · rw [if_pos ht] at hp
    exact absurd hp (by simp)
  · rw [if_neg ht] at hp
    split_ifs at hp with h1 h2 h2 <;>
      rw [bresAux_get_zero] at hp <;>
      obtain rfl := Option.some.inj hp <;>
      constructor <;>
      rw [abs_le] <;>
      rcases hsx with rfl | rfl <;>
      rcases hsy with rfl | rfl <;>
      dsimp only <;>
      omega

/-- The cell returned by `findNeighbourCellByNext` is always a grid neighbour
(Chebyshev distance at most 1) of the starting cell. -/
theorem findNeighbourCellByNext_adjacent (x y x1 y1 : Int) :
    |(findNeighbourCellByNext x y x1 y1).1 - x| ≤ 1 ∧
    |(findNeighbourCellByNext x y x1 y1).2 - y| ≤ 1 := by
  unfold findNeighbourCellByNext
  by_cases h : x1 - x ≥ -1 ∧ x1 - x ≤ 1 ∧ y1 - y ≥ -1 ∧ y1 - y ≤ 1
  · rw [if_pos h]
    exact ⟨by rw [abs_le]; omega, by rw [abs_le]; omega⟩
  · rw [if_neg h]
    unfold computeStraightLineCells
    dsimp only
    cases hg : (bresAux x1 y1 (if x < x1 then 1 else -1) (if y < y1 then 1 else -1)
        |x1 - x| (-|y1 - y|) ((|x1 - x| - -|y1 - y|).toNat + 1) x y
        (|x1 - x| + -|y1 - y|)).get? 1 with
    | none => simp
    | some p =>
      have := bresAux_get1_adjacent x1 y1 (if x < x1 then 1 else -1)
        (if y < y1 then 1 else -1) |x1 - x| (-|y1 - y|)
        ((|x1 - x| - -|y1 - y|).toNat) x y (|x1 - x| + -|y1 - y|)
        (by split <;> simp) (by split <;> simp) p hg
      simpa using this

/-- The predecessor map contains, at every cell, either the `inf` sentinel or
a packed grid neighbour of that cell. -/
def frmFunAdjacent (m : QuadtreeMap) (g : Int → Int → Int) : Prop :=
  ∀ x y : Int, g x y = inf ∨
    ∃ a bq : Int, |a - x| ≤ 1 ∧ |bq - y| ≤ 1 ∧ g x y = m.PackXY a bq

/-- Writing a packed grid neighbour preserves `frmFunAdjacent`. -/
theorem frmFunAdjacent_upd2 (m : QuadtreeMap) (g : Int → Int → Int)
    (h : frmFunAdjacent m g) (x y a bq : Int) (ha : |a - x| ≤ 1) (hb : |bq - y| ≤ 1) :
    frmFunAdjacent m (upd2 g x y (m.PackXY a bq)) := by
  intro x' y'
  unfold upd2
  by_cases hxy : x' = x ∧ y' = y
  · rw [if_pos hxy]
    exact Or.inr ⟨a, bq, by rw [hxy.1]; exact ha, by rw [hxy.2]; exact hb, rfl⟩
  · rw [if_neg hxy]
    exact h x' y'

/-- Seeding a gate entry preserves `frmFunAdjacent`: the forced predecessor is
produced by `findNeighbourCellByNext`. -/
theorem seedStep_frm (m : QuadtreeMap) (q : Rectangle) (fm : FinalMaps)
    (e : Int × Int × Int) (h : frmFunAdjacent m fm.frm) :
    frmFunAdjacent m (seedStep m q fm e).frm := by
  unfold seedStep
  dsimp only
  split
  · exact frmFunAdjacent_upd2 m fm.frm h _ _ _ _
      (findNeighbourCellByNext_adjacent _ _ _ _).1
      (findNeighbourCellByNext_adjacent _ _ _ _).2
  · exact h

/-- One cell of sweep 1 preserves `frmFunAdjacent`: every candidate
predecessor it can record is one of four explicit grid neighbours. -/
theorem dpCell1_frm (m : QuadtreeMap) (nd : QdNode) (c1 c2 : Int) (fm : FinalMaps)
    (p : Int × Int) (h : frmFunAdjacent m fm.frm) :
    frmFunAdjacent m (dpCell1 m nd c1 c2 fm p).frm := by
  unfold dpCell1
  dsimp only
  split
  · exact h
  · split
    · exact h
    · rename_i q heq
      split_ifs at heq <;>
        simp only [Option.some.injEq] at heq <;>
        first
          | exact absurd heq (by simp)
          | (obtain rfl := heq.symm
             exact frmFunAdjacent_upd2 m fm.frm h _ _ _ _ (by rw [abs_le]; omega)
               (by rw [abs_le]; omega))

/-- One cell of sweep 2 preserves `frmFunAdjacent`. -/
theorem dpCell2_frm (m : QuadtreeMap) (nd : QdNode) (c1 c2 : Int) (fm : FinalMaps)
    (p : Int × Int) (h : frmFunAdjacent m fm.frm) :
    frmFunAdjacent m (dpCell2 m nd c1 c2 fm p).frm := by
  unfold dpCell2
  dsimp only
  split
  · exact h
  · split
    · exact h
    · rename_i q heq
      split_ifs at heq <;>
        simp only [Option.some.injEq] at heq <;>
        first
          | exact absurd heq (by simp)
          | (obtain rfl := heq.symm
             exact frmFunAdjacent_upd2 m fm.frm h _ _ _ _ (by rw [abs_le]; omega)
               (by rw [abs_le]; omega))

/-- The scratch maps built by `ComputeFinalFlowFieldInQueryRange` satisfy
`frmFunAdjacent`. -/
theorem finalMapsOf_frm (s : FFState) : frmFunAdjacent s.m (finalMapsOf s).frm := by
  unfold finalMapsOf
  dsimp only
  refine foldlPreserve (fun fm : FinalMaps => frmFunAdjacent s.m fm.frm) _ _ _ ?_ ?_
  · refine foldlPreserve (fun fm : FinalMaps => frmFunAdjacent s.m fm.frm) _ _ _ ?_ ?_
    · intro x y
      exact Or.inl rfl
    · intro acc e _ hacc
      exact seedStep_frm s.m s.qrange acc e hacc
  · intro acc nd _ hacc
    unfold computeFinalFlowFieldDP2 computeFinalFlowFieldDP1
    refine foldlPreserve (fun fm : FinalMaps => frmFunAdjacent s.m fm.frm) _ _ _ ?_ ?_
    · refine foldlPreserve (fun fm : FinalMaps => frmFunAdjacent s.m fm.frm) _ _ _ hacc ?_
      intro a2 p _ ha2
      exact dpCell1_frm s.m nd _ _ a2 p ha2
    · intro a2 p _ ha2
      exact dpCell2_frm s.m nd _ _ a2 p ha2

/-- Inversion of membership in the emitted final field: every entry comes from
a query-range cell whose cost and predecessor are both set. -/
theorem emitFinalField_mem (s : FFState) (fm : FinalMaps) (v c nx : Int)
    (h : (v, c, nx) ∈ emitFinalField s fm) :
    ∃ p ∈ cellsOfRect s.qrange,
      ¬(fm.f p.1 p.2 = inf ∨ fm.frm p.1 p.2 = inf) ∧
      v = s.m.PackXY p.1 p.2 ∧ c = fm.f p.1 p.2 ∧ nx = fm.frm p.1 p.2 := by
  unfold emitFinalField at h
  rw [List.mem_filterMap] at h
  obtain ⟨p, hp, he⟩ := h
  by_cases hc : fm.f p.1 p.2 = inf ∨ fm.frm p.1 p.2 = inf
  · rw [if_pos hc] at he
    exact absurd he (by simp)
  · rw [if_neg hc] at he
    obtain he := Option.some.inj he
    refine ⟨p, hp, hc, ?_, ?_, ?_⟩
    · exact congrArg (fun z => z.1) he.symm
    · exact congrArg (fun z => z.2.1) he.symm
    · exact congrArg (fun z => z.2.2) he.symm

/-- C7: on a map whose unpacking inverts its packing, every entry of the
completed final flow field has a successor whose unpacked coordinates are at
Chebyshev distance at most 1 from the unpacked coordinates of the entry's own
vertex. -/
theorem C7_nextAdjacent (s : FFState) (tN : QdNode)
    (hwf : ∀ a bq : Int, s.m.UnpackXY (s.m.PackXY a bq) = (a, bq))
    (ht : s.tNode = some tN) (hob : s.m.IsObstacle s.x2 s.y2 = false) :
    ∀ v c nx : Int,
      (v, c, nx) ∈
        (FlowFieldPathFinderImpl.ComputeFinalFlowFieldInQueryRange s).2.finalFlowField →
      |(s.m.UnpackXY nx).1 - (s.m.UnpackXY v).1| ≤ 1 ∧
      |(s.m.UnpackXY nx).2 - (s.m.UnpackXY v).2| ≤ 1 := by
  intro v c nx hmem
  have hred : (FlowFieldPathFinderImpl.ComputeFinalFlowFieldInQueryRange s).2.finalFlowField =
      emitFinalField s (finalMapsOf s) := by
    simp [FlowFieldPathFinderImpl.ComputeFinalFlowFieldInQueryRange, ht, hob]
  rw [hred] at hmem
  obtain ⟨p, _, hcc, hv, _, hnx⟩ := emitFinalField_mem s (finalMapsOf s) v c nx hmem
  rcases finalMapsOf_frm s p.1 p.2 with hinf | ⟨a, bq, ha, hb, heq⟩
  · exact absurd (Or.inr hinf) hcc
  · rw [hv, hnx, heq, hwf, hwf]
    exact ⟨ha, hb⟩

/-- The round trip of the bijective packing of `mapZ`. -/
theorem unpackZ_packZ (a bq : Int) : unpackZ (packZ a bq) = (a, bq) := by
  unfold unpackZ packZ
  rw [Int.toNat_natCast, Nat.unpair_pair]
  have hz : ∀ z : Int, zdec (zenc z) = z := by
    intro z
    unfold zdec zenc
    split <;> split <;> omega
  rw [hz, hz]

/-- Witness for C7 on the concrete state `stateZ`: the target's self-loop
entry of the final field points to a grid-adjacent (here: identical) cell. -/
theorem C7_nextAdjacentWitness :
    |(mapZ.UnpackXY 0).1 - (mapZ.UnpackXY 0).1| ≤ 1 ∧
    |(mapZ.UnpackXY 0).2 - (mapZ.UnpackXY 0).2| ≤ 1 :=
  C7_nextAdjacent stateZ nodeA2 (fun a bq => unpackZ_packZ a bq) rfl rfl 0 0 0 (by decide)

/-! Coverage of the node-field stage (C5): invariants of the generic solver.
-/

section SolverLemmas

variable {V : Type} [DecidableEq V]

theorem mem_insertIfAbsent (v w : V) (l : List V) :
    w ∈ insertIfAbsent v l ↔ w = v ∨ w ∈ l := by
  unfold insertIfAbsent
  split
  · rename_i hv
    constructor
    · exact fun h => Or.inr h
    · rintro (rfl | h)
      · exact hv
      · exact h
  · exact List.mem_cons

theorem insertIfAbsent_self (v : V) (l : List V) : v ∈ insertIfAbsent v l :=
  (mem_insertIfAbsent v v l).mpr (Or.inl rfl)

theorem insertIfAbsent_subset (v : V) (l : List V) : ∀ w ∈ l, w ∈ insertIfAbsent v l :=
  fun w hw => (mem_insertIfAbsent v w l).mpr (Or.inr hw)

theorem insertIfAbsent_nodup (v : V) (l : List V) (h : l.Nodup) :
    (insertIfAbsent v l).Nodup := by
  unfold insertIfAbsent
  split
  · exact h
  · rename_i hv
    exact List.nodup_cons.mpr ⟨hv, h⟩

theorem inField_ffUpsert (fld : List (V × Int × V)) (v : V) (c : Int) (nx : V) (w : V) :
    inField (ffUpsert fld v c nx) w ↔ w = v ∨ inField fld w := by
  unfold inField ffUpsert ffKeys
  simp only [List.map_cons, List.mem_cons, List.mem_map, List.mem_filter,
    decide_eq_true_eq]
  constructor
  · rintro (h | ⟨e, ⟨he, _⟩, rfl⟩)
    · exact Or.inl h
    · exact Or.inr ⟨e, he, rfl⟩
  · rintro (h | ⟨e, he, rfl⟩)
    · exact Or.inl h
    · by_cases hev : e.1 = v
      · exact Or.inl hev
      · exact Or.inr ⟨e, ⟨he, hev⟩, rfl⟩

theorem inField_iff_ffCost (fld : List (V × Int × V)) (v : V) :
    inField fld v ↔ (ffCost fld v).isSome := by
  unfold inField ffCost ffKeys
  rw [Option.isSome_map']
  rw [List.find?_isSome]
  simp only [List.mem_map, decide_eq_true_eq]

theorem improves_false_inField (fld : List (V × Int × V)) (v : V) (c2 : Int)
    (h : ¬ improves fld v c2 = true) : inField fld v := by
  rw [inField_iff_ffCost]
  unfold improves at h
  cases hc : ffCost fld v with
  | none => rw [hc] at h; exact absurd rfl h
  | some c => simp [hc]

theorem minBy_mem (fld : List (V × Int × V)) : ∀ (u : V) (r : List V),
    minBy fld u r ∈ u :: r := by
  intro u r
  induction r generalizing u with
  | nil => simp [minBy]
  | cons v rest ih =>
    unfold minBy
    split
    · rcases List.mem_cons.mp (ih v) with h | h
      · rw [h]
        exact List.mem_cons_of_mem u (List.mem_cons_self v rest)
      · exact List.mem_cons_of_mem u (List.mem_cons_of_mem v h)
    · rcases List.mem_cons.mp (ih u) with h | h
      · rw [h]
        exact List.mem_cons_self u (v :: rest)
      · exact List.mem_cons_of_mem u (List.mem_cons_of_mem v h)

theorem extractMin_none_iff (fld : List (V × Int × V)) (q : List V) :
    extractMin fld q = none ↔ q = [] := by
  cases q with
  | nil => simp [extractMin]
  | cons a r => simp [extractMin]

theorem extractMin_some (fld : List (V × Int × V)) (q : List V) (u : V) (q' : List V)
    (h : extractMin fld q = some (u, q')) : u ∈ q ∧ q' = q.erase u := by
  cases q with
  | nil => simp [extractMin] at h
  | cons a r =>
    unfold extractMin at h
    dsimp only at h
    obtain h := Option.some.inj h
    have h1 : minBy fld a r = u := congrArg (fun z => z.1) h
    have h2 : (a :: r).erase (minBy fld a r) = q' := congrArg (fun z => z.2) h
    exact ⟨h1 ▸ minBy_mem fld a r, (h1 ▸ h2).symm⟩

/-- Invariant carried through the relaxation of one settled vertex's
neighbour list. -/
structure RelaxInv (settled : List V) (st : List (V × Int × V) × List V) : Prop where
  hq : ∀ v ∈ st.2, inField st.1 v
  hl : ∀ v, inField st.1 v → v ∈ settled ∨ v ∈ st.2
  hnd : st.2.Nodup
  hns : ∀ v ∈ st.2, v ∉ settled

theorem relaxStep_inv (filter : V → Bool) (settled : List V) (cu : Int) (u : V)
    (st : List (V × Int × V) × List V) (p : V × Int) (h : RelaxInv settled st) :
    RelaxInv settled (relaxStep filter settled cu u st p) := by
  unfold relaxStep
  split
  · rename_i hcond
    refine ⟨?_, ?_, ?_, ?_⟩
    · intro v hv
      rcases (mem_insertIfAbsent _ _ _).mp hv with rfl | hv
      · exact (inField_ffUpsert _ _ _ _ _).mpr (Or.inl rfl)
      · exact (inField_ffUpsert _ _ _ _ _).mpr (Or.inr (h.hq v hv))
    · intro v hv
      rcases (inField_ffUpsert _ _ _ _ _).mp hv with rfl | hv
      · exact Or.inr (insertIfAbsent_self _ _)
      · rcases h.hl v hv with hs | hs
        · exact Or.inl hs
        · exact Or.inr (insertIfAbsent_subset _ _ v hs)
    · exact insertIfAbsent_nodup _ _ h.hnd
    · intro v hv
      rcases (mem_insertIfAbsent _ _ _).mp hv with rfl | hv
      · exact hcond.2.1
      · exact h.hns v hv
  · exact h

theorem relaxStep_monoQ (filter : V → Bool) (settled : List V) (cu : Int) (u : V)
    (st : List (V × Int × V) × List V) (p : V × Int) :
    ∀ v ∈ st.2, v ∈ (relaxStep filter settled cu u st p).2 := by
  intro v hv
  unfold relaxStep
  split
  · exact insertIfAbsent_subset _ _ v hv
  · exact hv

theorem relaxStep_monoF (filter : V → Bool) (settled : List V) (cu : Int) (u : V)
    (st : List (V × Int × V) × List V) (p : V × Int) :
    ∀ v, inField st.1 v → inField (relaxStep filter settled cu u st p).1 v := by
  intro v hv
  unfold relaxStep
  split
  · exact (inField_ffUpsert _ _ _ _ _).mpr (Or.inr hv)
  · exact hv

theorem relaxStep_post (filter : V → Bool) (settled : List V) (cu : Int) (u : V)
    (st : List (V × Int × V) × List V) (p : V × Int) (h : RelaxInv settled st)
    (hf : filter p.1 = true) :
    p.1 ∈ settled ∨ p.1 ∈ (relaxStep filter settled cu u st p).2 := by
  by_cases hs : p.1 ∈ settled
  · exact Or.inl hs
  · by_cases hi : improves st.1 p.1 (cu + p.2) = true
    · right
      unfold relaxStep
      rw [if_pos ⟨hf, hs, hi⟩]
      exact insertIfAbsent_self _ _
    · have hfld := improves_false_inField st.1 p.1 (cu + p.2) hi
      rcases h.hl p.1 hfld with hh | hh
      · exact Or.inl hh
      · exact Or.inr (relaxStep_monoQ filter settled cu u st p p.1 hh)

theorem relaxFold_monoQ (filter : V → Bool) (settled : List V) (cu : Int) (u : V)
    (nbrs : List (V × Int)) :
    ∀ (st : List (V × Int × V) × List V), ∀ v ∈ st.2,
      v ∈ (nbrs.foldl (relaxStep filter settled cu u) st).2 := by
  induction nbrs with
  | nil => intro st v hv; exact hv
  | cons hd tl ih =>
    intro st v hv
    exact ih _ v (relaxStep_monoQ filter settled cu u st hd v hv)

theorem relaxFold_monoF (filter : V → Bool) (settled : List V) (cu : Int) (u : V)
    (nbrs : List (V × Int)) :
    ∀ (st : List (V × Int × V) × List V), ∀ v, inField st.1 v →
      inField (nbrs.foldl (relaxStep filter settled cu u) st).1 v := by
  induction nbrs with
  | nil => intro st v hv; exact hv
  | cons hd tl ih =>
    intro st v hv
    exact ih _ v (relaxStep_monoF filter settled cu u st hd v hv)

theorem relaxFold_inv (filter : V → Bool) (settled : List V) (cu : Int) (u : V)
    (nbrs : List (V × Int)) :
    ∀ (st : List (V × Int × V) × List V), RelaxInv settled st →
      RelaxInv settled (nbrs.foldl (relaxStep filter settled cu u) st) := by
  induction nbrs with
  | nil => intro st h; exact h
  | cons hd tl ih =>
    intro st h
    exact ih _ (relaxStep_inv filter settled cu u st hd h)

theorem relaxFold_post (filter : V → Bool) (settled : List V) (cu : Int) (u : V)
    (nbrs : List (V × Int)) :
    ∀ (st : List (V × Int × V) × List V), RelaxInv settled st →
      ∀ p ∈ nbrs, filter p.1 = true →
        p.1 ∈ settled ∨ p.1 ∈ (nbrs.foldl (relaxStep filter settled cu u) st).2 := by
  induction nbrs with
  | nil => intro st _ p hp; exact absurd hp (List.not_mem_nil p)
  | cons hd tl ih =>
    intro st hinv p hp hf
    rcases List.mem_cons.mp hp with rfl | hp
    · rcases relaxStep_post filter settled cu u st p hinv hf with h | h
      · exact Or.inl h
      · exact Or.inr (relaxFold_monoQ filter settled cu u tl _ p.1 h)
    · exact ih _ (relaxStep_inv filter settled cu u st hd hinv) p hp hf

/-- A duplicate-free list whose membership count inside another duplicate-free
list reaches its full length is entirely contained in that list. -/
theorem subset_of_countP (S L : List V) (hS : S.Nodup) (hL : L.Nodup)
    (h : S.length ≤ L.countP (fun w => decide (w ∈ S))) : ∀ v ∈ S, v ∈ L := by
  intro v hv
  by_contra hvL
  have hFnd : (L.filter (fun w => decide (w ∈ S))).Nodup := hL.filter _
  have hsub2 : L.filter (fun w => decide (w ∈ S)) ⊆ S.erase v := by
    intro w hw
    have hw2 := List.mem_filter.mp hw
    have hwS : w ∈ S := of_decide_eq_true hw2.2
    have hwv : w ≠ v := by
      rintro rfl
      exact hvL hw2.1
    exact (List.Nodup.mem_erase_iff hS).mpr ⟨hwv, hwS⟩
  have hlen := (List.Nodup.subperm hFnd hsub2).length_le
  have herase : (S.erase v).length = S.length - 1 := List.length_erase_of_mem hv
  have hc : L.countP (fun w => decide (w ∈ S)) =
      (L.filter (fun w => decide (w ∈ S))).length := List.countP_eq_length_filter _ _
  have hpos : 0 < S.length := List.length_pos.mpr (List.ne_nil_of_mem hv)
  omega

/-- Reachability from `src` through the neighbour iterator, restricted to
vertices accepted by the neighbour filter. -/
inductive ReachableVia (nbr : V → List (V × Int)) (filter : V → Bool) (src : V) :
    V → Prop where
  | refl : ReachableVia nbr filter src src
  | tail {v w : V} {c : Int} (hr : ReachableVia nbr filter src v)
      (hm : (w, c) ∈ nbr v) (hf : filter w = true) : ReachableVia nbr filter src w

/-- Invariant of the solver loop: the stop counter counts settled members of
`stopSet`, queue and settled are disjoint duplicate-free lists covered by the
field, every field vertex is queued or settled, and (except for a vertex just
settled before an early stop) the settled set's filtered neighbourhood is
always settled or queued. -/
structure DInv (nbr : V → List (V × Int)) (filter : V → Bool) (stopSet : List V)
    (src : V) (st : DState V) : Prop where
  qNodup : st.queue.Nodup
  sNodup : st.settled.Nodup
  disj : ∀ v ∈ st.queue, v ∉ st.settled
  nEq : st.n = st.settled.countP (fun w => decide (w ∈ stopSet))
  qField : ∀ v ∈ st.queue, inField st.field v
  sField : ∀ v ∈ st.settled, inField st.field v
  fieldQS : ∀ v, inField st.field v → v ∈ st.queue ∨ v ∈ st.settled
  srcField : inField st.field src
  closed : ∀ u ∈ st.settled, ∀ p ∈ nbr u, filter p.1 = true →
    p.1 ∈ st.settled ∨ p.1 ∈ st.queue

/-- The initial solver state satisfies the loop invariant. -/
theorem dInit_inv (nbr : V → List (V × Int)) (filter : V → Bool) (stopSet : List V)
    (src : V) : DInv nbr filter stopSet src (dInit src) := by
  refine ⟨?_, ?_, ?_, ?_, ?_, ?_, ?_, ?_, ?_⟩
  · exact List.nodup_singleton src
  · exact List.nodup_nil
  · intro v _
    exact List.not_mem_nil v
  · simp [dInit]
  · intro v hv
    rcases List.mem_singleton.mp hv with rfl
    simp [dInit, inField, ffKeys]
  · intro v hv
    exact absurd hv (List.not_mem_nil v)
  · intro v hv
    left
    simp only [dInit, inField, ffKeys, List.map_cons, List.map_nil] at hv
    rcases List.mem_singleton.mp hv with rfl
    exact List.mem_singleton.mpr rfl
  · simp [dInit, inField, ffKeys]
  · intro u hu
    exact absurd hu (List.not_mem_nil u)

/-- Outcome of the solver loop from an invariant state: an early stop means
every `stopSet` member is in the field; a natural exhaustion of the queue
means every filter-respecting vertex reachable from the source is in the
field. -/
theorem dRun_out (nbr : V → List (V × Int)) (filter : V → Bool) (stopSet : List V)
    (src : V) (hstop : stopSet.Nodup) :
    ∀ (fuel : Nat) (st : DState V), DInv nbr filter stopSet src st →
      ((dRun nbr filter stopSet fuel st).2 = EndKind.byStop →
        ∀ v ∈ stopSet, inField (dRun nbr filter stopSet fuel st).1.field v) ∧
      ((dRun nbr filter stopSet fuel st).2 = EndKind.byEmpty →
        ∀ v, ReachableVia nbr filter src v →
          inField (dRun nbr filter stopSet fuel st).1.field v) := by
  intro fuel
  induction fuel with
  | zero =>
    intro st _
    constructor
    · intro h
      exact absurd h (by simp [dRun])
    · intro h
      exact absurd h (by simp [dRun])
  | succ fuel ih =>
    intro st hinv
    cases hext : extractMin st.field st.queue with
    | none =>
      have hrw : dRun nbr filter stopSet (fuel + 1) st = (st, EndKind.byEmpty) := by
        simp [dRun, hext]
      rw [hrw]
      constructor
      · intro h
        exact absurd h (by simp)
      · intro _ v hr
        have hqe : st.queue = [] := (extractMin_none_iff st.field st.queue).mp hext
        have hsettled : ∀ w, ReachableVia nbr filter src w → w ∈ st.settled := by
          intro w hw
          induction hw with
          | refl =>
            rcases hinv.fieldQS src hinv.srcField with h | h
            · rw [hqe] at h
              exact absurd h (List.not_mem_nil src)
            · exact h
          | tail hr2 hm hf ih2 =>
            rcases hinv.closed _ ih2 _ hm hf with h | h
            · exact h
            · rw [hqe] at h
              exact absurd h (List.not_mem_nil _)
        exact hinv.sField v (hsettled v hr)
    | some uq =>
      obtain ⟨u, q'⟩ := uq
      obtain ⟨hu, hq'⟩ := extractMin_some st.field st.queue u q' hext
      have hnsu : u ∉ st.settled := hinv.disj u hu
      have hcnt : (if u ∈ stopSet then st.n + 1 else st.n) =
          (u :: st.settled).countP (fun w => decide (w ∈ stopSet)) := by
        rw [List.countP_cons, hinv.nEq]
        by_cases hus : u ∈ stopSet <;> simp [hus]
      by_cases hstopc : stopSet.length ≤ (if u ∈ stopSet then st.n + 1 else st.n)
      · have hrw : dRun nbr filter stopSet (fuel + 1) st =
            ({ field := st.field, queue := q', settled := u :: st.settled,
               n := if u ∈ stopSet then st.n + 1 else st.n }, EndKind.byStop) := by
          simp [dRun, hext, hstopc]
        rw [hrw]
        constructor
        · intro _ v hv
          have hsub := subset_of_countP stopSet (u :: st.settled) hstop
            (List.nodup_cons.mpr ⟨hnsu, hinv.sNodup⟩) (by rw [← hcnt]; exact hstopc)
          rcases List.mem_cons.mp (hsub v hv) with rfl | hvs
          · exact hinv.qField v hu
          · exact hinv.sField v hvs
        · intro h
          exact absurd h (by simp)
      · have hq'nodup : q'.Nodup := by
          rw [hq']
          exact hinv.qNodup.erase u
        have hrinv : RelaxInv (u :: st.settled) (st.field, q') := by
          refine ⟨?_, ?_, ?_, ?_⟩
          · intro v hv
            refine hinv.qField v ?_
            rw [hq'] at hv
            exact List.erase_subset _ _ hv
          · intro v hv
            rcases hinv.fieldQS v hv with h | h
            · by_cases hvu : v = u
              · exact Or.inl (hvu ▸ List.mem_cons_self u st.settled)
              · right
                rw [hq']
                exact (List.mem_erase_of_ne hvu).mpr h
            · exact Or.inl (List.mem_cons_of_mem u h)
          · exact hq'nodup
          · intro v hv
            rw [hq'] at hv
            obtain ⟨hvne, hvq⟩ := (List.Nodup.mem_erase_iff hinv.qNodup).mp hv
            intro hc
            rcases List.mem_cons.mp hc with rfl | hc2
            · exact hvne rfl
            · exact hinv.disj v hvq hc2
        have hfinv := relaxFold_inv filter (u :: st.settled) (dCost st.field u) u
          (nbr u) (st.field, q') hrinv
        have hrw : dRun nbr filter stopSet (fuel + 1) st =
            dRun nbr filter stopSet fuel
              { field := ((nbr u).foldl
                  (relaxStep filter (u :: st.settled) (dCost st.field u) u)
                  (st.field, q')).1,
                queue := ((nbr u).foldl
                  (relaxStep filter (u :: st.settled) (dCost st.field u) u)
                  (st.field, q')).2,
                settled := u :: st.settled,
                n := if u ∈ stopSet then st.n + 1 else st.n } := by
          simp [dRun, hext, hstopc]
        rw [hrw]
        apply ih
        refine ⟨?_, ?_, ?_, ?_, ?_, ?_, ?_, ?_, ?_⟩
        · exact hfinv.hnd
        · exact List.nodup_cons.mpr ⟨hnsu, hinv.sNodup⟩
        · exact hfinv.hns
        · exact hcnt
        · exact hfinv.hq
        · intro v hv
          rcases List.mem_cons.mp hv with hvu | hvs
          · subst hvu
            exact relaxFold_monoF filter (v :: st.settled) (dCost st.field v) v
              (nbr v) (st.field, q') v (hinv.qField v hu)
          · exact relaxFold_monoF filter (u :: st.settled) (dCost st.field u) u
              (nbr u) (st.field, q') v (hinv.sField v hvs)
        · intro v hv
          exact (hfinv.hl v hv).symm
        · exact relaxFold_monoF filter (u :: st.settled) (dCost st.field u) u
            (nbr u) (st.field, q') src hinv.srcField
        · intro w hw p hp hf
          rcases List.mem_cons.mp hw with hwu | hws
          · subst hwu
            exact relaxFold_post filter (w :: st.settled) (dCost st.field w) w
              (nbr w) (st.field, q') hrinv p hp hf
          · rcases hinv.closed w hws p hp hf with h | h
            · exact Or.inl (List.mem_cons_of_mem u h)
            · by_cases hpu : p.1 = u
              · exact Or.inl (hpu ▸ List.mem_cons_self u st.settled)
              · right
                refine relaxFold_monoQ filter (u :: st.settled) (dCost st.field u) u
                  (nbr u) (st.field, q') p.1 ?_
                rw [hq']
                exact (List.mem_erase_of_ne hpu).mpr h

end SolverLemmas

/-- State after the `Reset` of the C5 scenario: target `(0,0)` on the
disconnected map, query range covering both single-cell leaves. -/
def stateR5 : FFState :=
  FlowFieldPathFinderImpl.Reset mapDisconnected 0 0 ⟨0, 0, 2, 2⟩
    (initState mapDisconnected)

/-- Counterexample to C5: on a map whose two query-overlapping leaves are not
connected in the leaf adjacency graph, `ComputeNodeFlowField` returns `0`
although the unreachable overlapping leaf is absent from `nodeFlowField`. -/
theorem C5_unreachableLeafCounterexample :
    (FlowFieldPathFinderImpl.ComputeNodeFlowField 10 stateR5).1 = 0 ∧
    nodeB2 ∈ stateR5.nodesOverlappingQueryRange ∧
    ¬ inField
      (FlowFieldPathFinderImpl.ComputeNodeFlowField 10 stateR5).2.nodeFlowField
      nodeB2 := by
  decide

/-- C5 as amended: after a `ComputeNodeFlowField` run that completes (either
by its early-stop predicate or by exhausting the queue), every leaf of
`nodesOverlappingQueryRange` that is reachable from the target's leaf through
the leaf adjacency iterator is present in `nodeFlowField`; leaves unreachable
from `tNode` may be absent even though the call returns `0`. -/
theorem C5_reachableCoverage (fuel : Nat) (s : FFState) (tN : QdNode)
    (ht : s.tNode = some tN) (hob : s.m.IsObstacle s.x2 s.y2 = false)
    (hnd : s.nodesOverlappingQueryRange.Nodup)
    (hfin : (nodeFieldRun fuel s tN).2 ≠ EndKind.fuelOut) :
    ∀ nd ∈ s.nodesOverlappingQueryRange,
      ReachableVia (fun u => s.m.ForEachNeighbourNodes u) (fun _ => true) tN nd →
      inField (FlowFieldPathFinderImpl.ComputeNodeFlowField fuel s).2.nodeFlowField
        nd := by
  intro nd hndm hr
  have hfield : (FlowFieldPathFinderImpl.ComputeNodeFlowField fuel s).2.nodeFlowField =
      (nodeFieldRun fuel s tN).1.field := by
    simp [FlowFieldPathFinderImpl.ComputeNodeFlowField, ht, hob]
  rw [hfield]
  have hmain := dRun_out (fun u => s.m.ForEachNeighbourNodes u) (fun _ => true)
    s.nodesOverlappingQueryRange tN hnd fuel (dInit tN)
    (dInit_inv (fun u => s.m.ForEachNeighbourNodes u) (fun _ => true)
      s.nodesOverlappingQueryRange tN)
  cases hek : (nodeFieldRun fuel s tN).2 with
  | byStop => exact hmain.1 hek nd hndm
  | byEmpty => exact hmain.2 hek nd hr
  | fuelOut => exact absurd hek hfin

/-- Witness for C5's amended theorem: on the first query of `mapOneLeaf` the
target's own leaf (trivially reachable) is present in the node flow field. -/
theorem C5_reachableCoverageWitness :
    inField (FlowFieldPathFinderImpl.ComputeNodeFlowField 10 stateQ1).2.nodeFlowField
      nodeA3 :=
  C5_reachableCoverage 10 stateQ1 nodeA3 (by decide) (by decide) (by decide)
    (by decide) nodeA3 (by decide) ReachableVia.refl

end Qdpf
